import Mathlib

/-!
# Verification of the openlinc AJAX polling scheduler (`v2/myJS.js`)

Shallow embedding of the polling-queue core of `src/unmodified/v2/myJS.js`:
`newAJAXCommand` (command issuance), `pollAJAX` (the poll-scheduler tick)
and `getXMLValue` (the response extractor), together with theorems settling
the specification claims about them.

Modelling conventions:
* JavaScript timestamps (`new Date().getTime()`) are `Nat` milliseconds;
  elapsed time is computed in `Int` as in the source (`now - lastCalled`).
* A transport handle (`XMLHttpRequest` / `ActiveXObject`) is modelled as a
  function from observation time to its observable state (`readyState`,
  `status`, `responseXML`, `responseText`).  `responseXML` is modelled
  directly as the optional `documentElement`; dereferencing it when absent
  raises a `TypeError`, as `null.documentElement` does in the source.
* The browser environment (which transport constructors exist, which render
  targets `document.getElementById` can find) is an explicit `Env` record.
* JavaScript exceptions are modelled explicitly: a tick returns an optional
  `JsErr`; an exception aborts the remainder of the tick and prevents the
  `setTimeout` re-arm on line 66, exactly as an uncaught throw would.
* Side effects (invoking a handler, writing `innerHTML`, `alert`, `abort`,
  releasing the handle) are recorded as an ordered `Event` trace.
* Records carry a ghost identifier `rid` standing for JavaScript object
  identity, so "this record is dispatched exactly once" is expressible.
-/

/-- `var timeOutMS = 30000;` (line 1). -/
def timeOutMS : Int := 30000

/-- An XML DOM node: structural element with children, or a text node. -/
inductive XMLNode where
  | elem (tag : String) (children : List XMLNode)
  | text (s : String)
deriving Repr

/-- DOM `firstChild`: first child of an element, `null` for text nodes and
childless elements. -/
def XMLNode.firstChild : XMLNode → Option XMLNode
  | .elem _ cs => cs.head?
  | .text _ => none

/-- DOM `nodeValue`: the character data of a text node, `null` on elements. -/
def XMLNode.nodeValue : XMLNode → Option String
  | .elem _ _ => none
  | .text s => some s

mutual

/-- Elements with tag `f` among `n` and its descendants, in document order. -/
def XMLNode.selfAndDescend : XMLNode → String → List XMLNode
  | .text _, _ => []
  | .elem t cs, f =>
      (if t = f then [XMLNode.elem t cs] else []) ++ XMLNode.descendList cs f

/-- Elements with tag `f` in a forest of siblings, in document order. -/
def XMLNode.descendList : List XMLNode → String → List XMLNode
  | [], _ => []
  | n :: rest, f => XMLNode.selfAndDescend n f ++ XMLNode.descendList rest f

end

/-- DOM `getElementsByTagName`: matching descendants of `n`, excluding `n`. -/
def XMLNode.getElems (n : XMLNode) (f : String) : List XMLNode :=
  match n with
  | .text _ => []
  | .elem _ cs => XMLNode.descendList cs f

/-- A JavaScript exception: a `TypeError` from dereferencing `null`/
`undefined`, or an exception thrown by a user-supplied sink handler. -/
inductive JsErr where
  | typeError
  | handlerError (name : String)
deriving Repr, DecidableEq

/-- The body of the `try` in `getXMLValue` (lines 70–75), with each
dereference that can throw made explicit.  `xmlData` is `null`-able
(`Option`), indexing `[0]` past the end yields `undefined` whose
`.firstChild` throws, and `.nodeValue` on a `null` `firstChild` throws.
A `nodeValue` that is `null` or the empty string is falsy, so the
`else` branch returns `null`. -/
def getXMLValueE (xmlData : Option XMLNode) (field : String) :
    Except Unit (Option String) :=
  match xmlData with
  | none => .error ()
  | some d =>
    match (d.getElems field).head? with
    | none => .error ()
    | some el =>
      match el.firstChild with
      | none => .error ()
      | some c =>
        match c.nodeValue with
        | none => .ok none
        | some s => if s = "" then .ok none else .ok (some s)

/-- `getXMLValue` (lines 69–76): the `try` body with every failure path
collapsed to `null` by the `catch`. -/
def getXMLValue (xmlData : Option XMLNode) (field : String) : Option String :=
  match getXMLValueE xmlData field with
  | .ok v => v
  | .error _ => none

/-- Observable state of a transport handle at one instant: `readyState`,
HTTP `status`, `responseXML` (modelled as the optional `documentElement`;
`none` stands for a `null` document) and `responseText`. -/
structure TransportObs where
  readyState : Nat
  status : Nat
  responseXML : Option XMLNode
  responseText : String

/-- A transport handle, as the tick observes it: a function from the
observation time to the observable state.  The underlying I/O runs
concurrently with the scheduler; the scheduler only polls this state. -/
def Transport := Nat → TransportObs

/-- The `container` argument of `newAJAXCommand`: a handler function
(`typeof == 'function'`, with a flag saying whether invoking it throws),
a render-target id string (`typeof == 'string'`), or anything else
(callers such as `MakeSceneControl` line 185 omit the argument, leaving
it `undefined`). -/
inductive Container where
  | fn (name : String) (thr : Bool)
  | str (s : String)
  | undef

/-- The browser environment: which transport constructors exist
(`window.XMLHttpRequest` / `window.ActiveXObject`), what they produce,
and which ids `document.getElementById` can resolve. -/
structure Env where
  hasXMLHttpRequest : Bool
  hasActiveXObject : Bool
  mkXhr : String → Option String → Transport
  mkActiveX : String → Option String → Option Transport
  hasElem : String → Bool

/-- One entry of `ajaxList` (the object built by `newAJAXCommand`,
lines 6–24).  `rid` is a ghost identifier standing for object identity;
`ajaxReq` is `none` when no transport mechanism was available (line 11
default survives); `lastCalled` is the creation timestamp (line 23). -/
structure AjaxRecord where
  rid : Nat
  url : String
  container : Container
  rep : Bool
  ajaxReq : Option Transport
  lastCalled : Nat

/-- The scheduler's mutable state: the global `ajaxList` queue plus the
ghost counter supplying fresh record identities. -/
structure SchedState where
  ajaxList : List AjaxRecord
  nextRid : Nat

/-- Transport construction in `newAJAXCommand` (lines 11–22): prefer
`XMLHttpRequest`, fall back to `ActiveXObject`, else leave the handle
`null`. -/
def mkAjaxReq (env : Env) (url : String) (data : Option String) :
    Option Transport :=
  if env.hasXMLHttpRequest then some (env.mkXhr url data)
  else if env.hasActiveXObject then env.mkActiveX url data
  else none

/-- The record `newAJAXCommand` builds at time `t` with ghost id `rid`. -/
def newRecord (env : Env) (t : Nat) (url : String) (container : Container)
    (rep : Bool) (data : Option String) (rid : Nat) : AjaxRecord :=
  { rid := rid, url := url, container := container, rep := rep,
    ajaxReq := mkAjaxReq env url data, lastCalled := t }

/-- `newAJAXCommand` (lines 4–25): build a record and push it onto the
tail of `ajaxList`. -/
def newAJAXCommand (env : Env) (t : Nat) (url : String)
    (container : Container) (rep : Bool) (data : Option String)
    (st : SchedState) : SchedState :=
  { ajaxList := st.ajaxList ++ [newRecord env t url container rep data st.nextRid],
    nextRid := st.nextRid + 1 }

/-- An observable effect performed while processing records, tagged with
the ghost id of the record it belongs to. -/
inductive Event where
  | dispatchFn (rid : Nat) (name : String) (arg : Option XMLNode)
  | writeTarget (rid : Nat) (targetId : String) (text : String)
  | alertFailure (rid : Nat)
  | abort (rid : Nat)
  | release (rid : Nat)

/-- The record an event belongs to. -/
def evRid : Event → Nat
  | .dispatchFn rid _ _ => rid
  | .writeTarget rid _ _ => rid
  | .alertFailure rid => rid
  | .abort rid => rid
  | .release rid => rid

/-- Is this event a sink dispatch (handler call, target write, or
failure alert)? -/
def isDispatchEv : Event → Bool
  | .dispatchFn _ _ _ => true
  | .writeTarget _ _ _ => true
  | .alertFailure _ => true
  | _ => false

/-- The condition of line 38: `readyState == 4 && status == 200`. -/
def isReadyOK (t : Nat) (tr : Transport) : Bool :=
  (tr t).readyState == 4 && (tr t).status == 200

/-- The condition of line 52: `elapsed > timeOutMS`, with
`elapsed = theTimer.getTime() - curAjax.lastCalled` (line 37). -/
def isTimedOut (t : Nat) (r : AjaxRecord) : Bool :=
  decide ((t : Int) - (r.lastCalled : Int) > timeOutMS)

/-- The sink dispatch of the ready branch (lines 39–43): a function
container is called with `responseXML.documentElement` (a `TypeError`
if `responseXML` is `null`, and the handler itself may throw); a string
container has `responseText` written into its element's `innerHTML`
(a `TypeError` if `getElementById` finds nothing); any other container
does nothing.  Returns the events performed and an optional exception. -/
def readyDispatch (env : Env) (r : AjaxRecord) (obs : TransportObs) :
    List Event × Option JsErr :=
  match r.container with
  | .fn name thr =>
    match obs.responseXML with
    | none => ([], some .typeError)
    | some doc =>
      ([.dispatchFn r.rid name (some doc)],
       if thr then some (.handlerError name) else none)
  | .str s =>
    if env.hasElem s then ([.writeTarget r.rid s obs.responseText], none)
    else ([], some .typeError)
  | .undef => ([], none)

/-- The sink dispatch of the timeout branch (lines 53–57): a function
container is called with `null` (and may throw); any other container —
string or `undefined` alike — triggers the user-visible alert. -/
def timeoutDispatch (r : AjaxRecord) : List Event × Option JsErr :=
  match r.container with
  | .fn name thr =>
    ([.dispatchFn r.rid name none],
     if thr then some (.handlerError name) else none)
  | _ => ([.alertFailure r.rid], none)

/-- The body of the `for` loop of `pollAJAX` (lines 34–64) for one
shifted record `r`, acting on the remaining queue `st`.  Reading
`curAjax.ajaxReq.readyState` with a `null` handle throws (line 38).
On dispatch: the sink runs first, then `abort()` and the `null`
release (lines 45–46 / 58–59), then the `repeat` re-issue (lines 47–48 /
60–61).  A pending record is pushed back on the tail (line 64).
An exception leaves the state as it stood when the throw happened. -/
def stepRecord (env : Env) (t : Nat) (r : AjaxRecord) (st : SchedState) :
    SchedState × List Event × Option JsErr :=
  match r.ajaxReq with
  | none => (st, [], some .typeError)
  | some tr =>
    if isReadyOK t tr then
      match readyDispatch env r (tr t) with
      | (devs, some e) => (st, devs, some e)
      | (devs, none) =>
        let st' := if r.rep then
            newAJAXCommand env t r.url r.container r.rep none st
          else st
        (st', devs ++ [.abort r.rid, .release r.rid], none)
    else if isTimedOut t r then
      match timeoutDispatch r with
      | (devs, some e) => (st, devs, some e)
      | (devs, none) =>
        let st' := if r.rep then
            newAJAXCommand env t r.url r.container r.rep none st
          else st
        (st', devs ++ [.abort r.rid, .release r.rid], none)
    else
      ({ st with ajaxList := st.ajaxList ++ [r] }, [], none)

/-- The `for` loop of `pollAJAX` (lines 32–65): `i` counts down from the
queue length captured at loop entry; each iteration `shift`s the head
(a defensive no-op if the queue were somehow empty, line 35) and runs
the loop body.  An uncaught exception exits the loop at once. -/
def pollSteps (env : Env) (t : Nat) :
    Nat → SchedState → List Event → SchedState × List Event × Option JsErr
  | 0, st, evs => (st, evs, none)
  | Nat.succ i, st, evs =>
    match st.ajaxList with
    | [] => pollSteps env t i st evs
    | r :: rest =>
      match stepRecord env t r ⟨rest, st.nextRid⟩ with
      | (st', devs, none) => pollSteps env t i st' (evs ++ devs)
      | (st', devs, some e) => (st', evs ++ devs, some e)

/-- Result of one `pollAJAX` tick: the new scheduler state, the ordered
event trace, whether line 66 re-armed the timer (`setTimeout`), and the
uncaught exception if one escaped. -/
structure TickResult where
  st : SchedState
  events : List Event
  rescheduled : Bool
  err : Option JsErr

/-- One `pollAJAX` tick at time `t` (lines 27–68): snapshot the queue
length, run the loop, then re-arm the timer — unless an exception
escaped, in which case line 66 is never reached. -/
def pollTick (env : Env) (t : Nat) (st : SchedState) : TickResult :=
  match pollSteps env t st.ajaxList.length st [] with
  | (st', evs, none) => ⟨st', evs, true, none⟩
  | (st', evs, some e) => ⟨st', evs, false, some e⟩

/-- `pollAJAX` against an external millisecond clock: `var theTimer =
new Date()` (line 30) samples the clock exactly once, at tick start;
everything else in the tick uses that single sample. -/
def pollAJAX (env : Env) (clock : Nat → Nat) (st : SchedState) : TickResult :=
  pollTick env (clock 0) st

/-! ## Snapshot-drain decomposition

The spec describes the tick as a two-collection handoff: the snapshot taken
at tick start is processed record by record, and everything enqueued during
the tick (re-enqueued pending records, fresh `repeat` records) forms the
next queue.  The functions below compute that handoff record by record; the
refinement theorem for claim C1 proves `pollTick` equal to it whenever no
exception interrupts the loop. -/

/-- Events produced by processing one record, in the exception-free case. -/
def stepEvents (env : Env) (t : Nat) (r : AjaxRecord) : List Event :=
  match r.ajaxReq with
  | none => []
  | some tr =>
    if isReadyOK t tr then
      (readyDispatch env r (tr t)).1 ++ [.abort r.rid, .release r.rid]
    else if isTimedOut t r then
      (timeoutDispatch r).1 ++ [.abort r.rid, .release r.rid]
    else []

/-- Records appended to the queue tail while processing one record, in the
exception-free case: a fresh `repeat` record (with ghost id `k`, and no
payload — line 48/61 passes no `data`), or the record itself when still
pending, or nothing. -/
def stepAppends (env : Env) (t : Nat) (r : AjaxRecord) (k : Nat) :
    List AjaxRecord :=
  match r.ajaxReq with
  | none => []
  | some tr =>
    if isReadyOK t tr || isTimedOut t r then
      if r.rep then [newRecord env t r.url r.container r.rep none k] else []
    else [r]

/-- Ghost-id counter after processing one record. -/
def stepRid (t : Nat) (r : AjaxRecord) (k : Nat) : Nat :=
  match r.ajaxReq with
  | none => k
  | some tr =>
    if (isReadyOK t tr || isTimedOut t r) && r.rep then k + 1 else k

/-- The queue left behind by a whole exception-free tick over snapshot
`rs`, ghost counter starting at `k`: each record's tail contribution, in
processing order. -/
def queueOf (env : Env) (t : Nat) : List AjaxRecord → Nat → List AjaxRecord
  | [], _ => []
  | r :: rs, k => stepAppends env t r k ++ queueOf env t rs (stepRid t r k)

/-- Ghost-id counter after a whole exception-free tick. -/
def ridOf (t : Nat) : List AjaxRecord → Nat → Nat
  | [], k => k
  | r :: rs, k => ridOf t rs (stepRid t r k)

/-- The event trace of a whole exception-free tick over snapshot `rs`. -/
def eventsOf (env : Env) (t : Nat) : List AjaxRecord → List Event
  | [] => []
  | r :: rs => stepEvents env t r ++ eventsOf env t rs

/-- The events of the trace belonging to record `rid`. -/
def ridEvents (evs : List Event) (rid : Nat) : List Event :=
  evs.filter (fun e => evRid e == rid)

/-- Processing record `r` at time `t` cannot throw: it has a transport
handle, a function sink does not throw and (when the transport is
ready-OK) has a parsed response document to be called with, and a string
sink's render target exists. -/
def SafeDispatch (env : Env) (t : Nat) (r : AjaxRecord) (tr : Transport) :
    Prop :=
  (∀ name thr, r.container = .fn name thr →
      thr = false ∧ (isReadyOK t tr = true → ∃ d, (tr t).responseXML = some d)) ∧
  (∀ s, r.container = .str s → env.hasElem s = true)

/-- A record the tick can process without an uncaught exception. -/
def SafeRecord (env : Env) (t : Nat) (r : AjaxRecord) : Prop :=
  ∃ tr, r.ajaxReq = some tr ∧ SafeDispatch env t r tr

/-- Does the event release record `rid`'s transport handle
(`ajaxReq = null`)? -/
def isReleaseOf (rid : Nat) : Event → Bool := fun e =>
  match e with
  | .release j => j == rid
  | _ => false

/-- Is the event a sink dispatch belonging to record `rid`? -/
def isDispatchOf (rid : Nat) : Event → Bool := fun e =>
  isDispatchEv e && (evRid e == rid)

/-- Does some sink dispatch for record `rid` occur strictly after the
release of its transport handle in the trace? -/
def dispatchAfterRelease (evs : List Event) (rid : Nat) : Bool :=
  ((evs.dropWhile (fun e => ! isReleaseOf rid e)).drop 1).any (isDispatchOf rid)

/-! ## Concrete fixtures for witnesses and counterexamples -/

/-- A parsed response document, `<response><CDS>3</CDS></response>`. -/
def doc0 : XMLNode := XMLNode.elem "response" [XMLNode.elem "CDS" [XMLNode.text "3"]]

/-- A transport that is already `readyState 4` / status `200`. -/
def trOK : Transport := fun _ => ⟨4, 200, some doc0, "resp"⟩

/-- A transport that stays at `readyState 1` forever (never ready). -/
def trPending : Transport := fun _ => ⟨1, 0, none, ""⟩

/-- A browser with `XMLHttpRequest` and every render target present. -/
def envStd : Env := ⟨true, false, fun _ _ => trOK, fun _ _ => none, fun _ => true⟩

/-- A browser with no transport mechanism at all: neither
`window.XMLHttpRequest` nor `window.ActiveXObject` exists. -/
def envBare : Env := ⟨false, false, fun _ _ => trPending, fun _ _ => none, fun _ => false⟩

/-- A record with a completed transport and a well-behaved handler sink. -/
def recOK : AjaxRecord := ⟨0, "a.xml", .fn "h" false, false, some trOK, 0⟩

/-- A record whose handler sink throws when invoked. -/
def recThrow : AjaxRecord := ⟨0, "a.xml", .fn "boom" true, false, some trOK, 0⟩

/-- A second, well-behaved record queued behind `recThrow`. -/
def recAfter : AjaxRecord := ⟨1, "b.xml", .fn "h" false, false, some trPending, 0⟩

/-- A record whose transport never becomes ready. -/
def recNever : AjaxRecord := ⟨0, "c.xml", .fn "h" false, false, some trPending, 0⟩

/-- A repeating record with no sink, issued at time `0`. -/
def recRep : AjaxRecord := ⟨0, "d.xml", .undef, true, some trOK, 0⟩

/-- A record with an omitted (`undefined`) sink. -/
def recUndef : AjaxRecord := ⟨0, "e.xml", .undef, false, some trOK, 0⟩

/-! ## Tick refinement lemmas -/

lemma stepRecord_safe (env : Env) (t : Nat) (r : AjaxRecord) (st : SchedState)
    (h : SafeRecord env t r) :
    stepRecord env t r st =
      (⟨st.ajaxList ++ stepAppends env t r st.nextRid, stepRid t r st.nextRid⟩,
       stepEvents env t r, none) := by
  obtain ⟨tr, htr, hfn, hstr⟩ := h
  simp only [stepRecord, stepAppends, stepRid, stepEvents, htr]
  by_cases hready : isReadyOK t tr
  · cases hc : r.container with
    | fn name thr =>
      obtain ⟨hthr, hresp⟩ := hfn name thr hc
      obtain ⟨d, hdoc⟩ := hresp hready
      subst hthr
      by_cases hrep : r.rep <;>
        simp [readyDispatch, hc, hdoc, hready, hrep, newAJAXCommand]
    | str s =>
      have hs := hstr s hc
      by_cases hrep : r.rep <;>
        simp [readyDispatch, hc, hs, hready, hrep, newAJAXCommand]
    | undef =>
      by_cases hrep : r.rep <;>
        simp [readyDispatch, hc, hready, hrep, newAJAXCommand]
  · by_cases htime : isTimedOut t r
    · cases hc : r.container with
      | fn name thr =>
        obtain ⟨hthr, _⟩ := hfn name thr hc
        subst hthr
        by_cases hrep : r.rep <;>
          simp [timeoutDispatch, hc, hready, htime, hrep, newAJAXCommand]
      | str s =>
        by_cases hrep : r.rep <;>
          simp [timeoutDispatch, hc, hready, htime, hrep, newAJAXCommand]
      | undef =>
        by_cases hrep : r.rep <;>
          simp [timeoutDispatch, hc, hready, htime, hrep, newAJAXCommand]
    · simp [hready, htime]

lemma pollSteps_safe (env : Env) (t : Nat) (rs : List AjaxRecord) :
    ∀ (acc : List AjaxRecord) (k : Nat) (evs : List Event),
      (∀ r ∈ rs, SafeRecord env t r) →
      pollSteps env t rs.length ⟨rs ++ acc, k⟩ evs =
        (⟨acc ++ queueOf env t rs k, ridOf t rs k⟩,
         evs ++ eventsOf env t rs, none) := by
  induction rs with
  | nil => intro acc k evs _; simp [pollSteps, queueOf, ridOf, eventsOf]
  | cons r rs ih =>
    intro acc k evs h
    have hr : SafeRecord env t r := h r (List.mem_cons_self r rs)
    have hrest : ∀ x ∈ rs, SafeRecord env t x :=
      fun x hx => h x (List.mem_cons_of_mem r hx)
    simp only [List.length_cons, List.cons_append, pollSteps]
    rw [stepRecord_safe env t r ⟨rs ++ acc, k⟩ hr]
    simp only [List.append_assoc]
    rw [ih (acc ++ stepAppends env t r k) (stepRid t r k)
        (evs ++ stepEvents env t r) hrest]
    simp [queueOf, ridOf, eventsOf, List.append_assoc]

/-- An exception-free tick is exactly the snapshot drain: process the
records present at tick start, in order, against an initially empty
"next tick" tail. -/
lemma pollTick_safe (env : Env) (t : Nat) (st : SchedState)
    (h : ∀ r ∈ st.ajaxList, SafeRecord env t r) :
    pollTick env t st =
      ⟨⟨queueOf env t st.ajaxList st.nextRid, ridOf t st.ajaxList st.nextRid⟩,
       eventsOf env t st.ajaxList, true, none⟩ := by
  obtain ⟨rs, k⟩ := st
  have h2 := pollSteps_safe env t rs [] k [] h
  simp only [List.append_nil, List.nil_append] at h2
  simp only [pollTick]
  rw [h2]

lemma eventsOf_append (env : Env) (t : Nat) (xs ys : List AjaxRecord) :
    eventsOf env t (xs ++ ys) = eventsOf env t xs ++ eventsOf env t ys := by
  induction xs with
  | nil => simp [eventsOf]
  | cons x xs ih => simp [eventsOf, ih]

lemma ridOf_append (t : Nat) (xs ys : List AjaxRecord) :
    ∀ k, ridOf t (xs ++ ys) k = ridOf t ys (ridOf t xs k) := by
  induction xs with
  | nil => intro k; simp [ridOf]
  | cons x xs ih => intro k; simp [ridOf, ih]

lemma queueOf_append (env : Env) (t : Nat) (xs ys : List AjaxRecord) :
    ∀ k, queueOf env t (xs ++ ys) k =
      queueOf env t xs k ++ queueOf env t ys (ridOf t xs k) := by
  induction xs with
  | nil => intro k; simp [queueOf, ridOf]
  | cons x xs ih => intro k; simp [queueOf, ridOf, ih, List.append_assoc]

lemma stepRid_le (t : Nat) (r : AjaxRecord) (k : Nat) : k ≤ stepRid t r k := by
  unfold stepRid
  cases r.ajaxReq with
  | none => exact Nat.le_refl k
  | some tr => dsimp only; split <;> omega

lemma ridOf_le (t : Nat) (rs : List AjaxRecord) : ∀ k, k ≤ ridOf t rs k := by
  induction rs with
  | nil => intro k; simp [ridOf]
  | cons r rs ih =>
    intro k
    calc k ≤ stepRid t r k := stepRid_le t r k
      _ ≤ ridOf t rs (stepRid t r k) := ih (stepRid t r k)
      _ = ridOf t (r :: rs) k := rfl

lemma mem_stepAppends (env : Env) (t : Nat) (r : AjaxRecord) (k : Nat)
    (x : AjaxRecord) (hx : x ∈ stepAppends env t r k) : x = r ∨ x.rid = k := by
  unfold stepAppends at hx
  cases htr : r.ajaxReq with
  | none => rw [htr] at hx; simp at hx
  | some tr =>
    rw [htr] at hx
    dsimp only at hx
    by_cases hres : isReadyOK t tr || isTimedOut t r
    · rw [if_pos hres] at hx
      by_cases hrep : r.rep
      · rw [if_pos hrep] at hx
        simp at hx
        right; rw [hx]; rfl
      · rw [if_neg hrep] at hx; simp at hx
    · rw [if_neg hres] at hx
      simp at hx
      left; exact hx

lemma mem_queueOf (env : Env) (t : Nat) (rs : List AjaxRecord) :
    ∀ k x, x ∈ queueOf env t rs k → (∃ y ∈ rs, x = y) ∨ k ≤ x.rid := by
  induction rs with
  | nil => intro k x hx; simp [queueOf] at hx
  | cons r rs ih =>
    intro k x hx
    simp only [queueOf, List.mem_append] at hx
    rcases hx with hx | hx
    · rcases mem_stepAppends env t r k x hx with h | h
      · exact Or.inl ⟨r, List.mem_cons_self r rs, h⟩
      · exact Or.inr (Nat.le_of_eq h.symm)
    · rcases ih (stepRid t r k) x hx with ⟨y, hy, hxy⟩ | h
      · exact Or.inl ⟨y, List.mem_cons_of_mem r hy, hxy⟩
      · exact Or.inr (Nat.le_trans (stepRid_le t r k) h)

lemma stepAppends_resolved (env : Env) (t : Nat) (r : AjaxRecord) (k : Nat)
    (tr : Transport) (htr : r.ajaxReq = some tr)
    (hres : (isReadyOK t tr || isTimedOut t r) = true) :
    stepAppends env t r k =
      if r.rep then [newRecord env t r.url r.container r.rep none k]
      else [] := by
  unfold stepAppends
  rw [htr]
  simp [hres]

lemma stepAppends_pending (env : Env) (t : Nat) (r : AjaxRecord) (k : Nat)
    (tr : Transport) (htr : r.ajaxReq = some tr)
    (hnr : isReadyOK t tr = false) (hnt : isTimedOut t r = false) :
    stepAppends env t r k = [r] := by
  unfold stepAppends
  rw [htr]
  simp [hnr, hnt]

lemma readyDispatch_fn (env : Env) (r : AjaxRecord) (obs : TransportObs)
    (name : String) (thr : Bool) (d : XMLNode)
    (hc : r.container = .fn name thr) (hd : obs.responseXML = some d) :
    readyDispatch env r obs =
      ([.dispatchFn r.rid name (some d)],
       if thr then some (.handlerError name) else none) := by
  unfold readyDispatch
  rw [hc, hd]

lemma readyDispatch_fn_nodoc (env : Env) (r : AjaxRecord) (obs : TransportObs)
    (name : String) (thr : Bool)
    (hc : r.container = .fn name thr) (hd : obs.responseXML = none) :
    readyDispatch env r obs = ([], some .typeError) := by
  unfold readyDispatch
  rw [hc, hd]

lemma readyDispatch_str (env : Env) (r : AjaxRecord) (obs : TransportObs)
    (s : String) (hc : r.container = .str s) (hs : env.hasElem s = true) :
    readyDispatch env r obs = ([.writeTarget r.rid s obs.responseText], none) := by
  unfold readyDispatch
  rw [hc]
  simp [hs]

lemma readyDispatch_str_noelem (env : Env) (r : AjaxRecord)
    (obs : TransportObs) (s : String) (hc : r.container = .str s)
    (hs : env.hasElem s = false) :
    readyDispatch env r obs = ([], some .typeError) := by
  unfold readyDispatch
  rw [hc]
  simp [hs]

lemma readyDispatch_undef (env : Env) (r : AjaxRecord) (obs : TransportObs)
    (hc : r.container = .undef) : readyDispatch env r obs = ([], none) := by
  unfold readyDispatch
  rw [hc]

lemma timeoutDispatch_fn (r : AjaxRecord) (name : String) (thr : Bool)
    (hc : r.container = .fn name thr) :
    timeoutDispatch r =
      ([.dispatchFn r.rid name none],
       if thr then some (.handlerError name) else none) := by
  unfold timeoutDispatch
  rw [hc]

lemma timeoutDispatch_str (r : AjaxRecord) (s : String)
    (hc : r.container = .str s) :
    timeoutDispatch r = ([.alertFailure r.rid], none) := by
  unfold timeoutDispatch
  rw [hc]

lemma timeoutDispatch_undef (r : AjaxRecord) (hc : r.container = .undef) :
    timeoutDispatch r = ([.alertFailure r.rid], none) := by
  unfold timeoutDispatch
  rw [hc]

lemma evRid_readyDispatch (env : Env) (r : AjaxRecord) (obs : TransportObs)
    (e : Event) (he : e ∈ (readyDispatch env r obs).1) : evRid e = r.rid := by
  cases hc : r.container with
  | fn name thr =>
    cases hd : obs.responseXML with
    | none =>
      rw [readyDispatch_fn_nodoc env r obs name thr hc hd] at he
      simp at he
    | some d =>
      rw [readyDispatch_fn env r obs name thr d hc hd] at he
      simp at he
      subst he
      rfl
  | str s =>
    cases hs : env.hasElem s with
    | false =>
      rw [readyDispatch_str_noelem env r obs s hc hs] at he
      simp at he
    | true =>
      rw [readyDispatch_str env r obs s hc hs] at he
      simp at he
      subst he
      rfl
  | undef =>
    rw [readyDispatch_undef env r obs hc] at he
    simp at he

lemma evRid_timeoutDispatch (r : AjaxRecord) (e : Event)
    (he : e ∈ (timeoutDispatch r).1) : evRid e = r.rid := by
  cases hc : r.container with
  | fn name thr =>
    rw [timeoutDispatch_fn r name thr hc] at he
    simp at he
    subst he
    rfl
  | str s =>
    rw [timeoutDispatch_str r s hc] at he
    simp at he
    subst he
    rfl
  | undef =>
    rw [timeoutDispatch_undef r hc] at he
    simp at he
    subst he
    rfl

lemma evRid_stepEvents (env : Env) (t : Nat) (r : AjaxRecord) (e : Event)
    (he : e ∈ stepEvents env t r) : evRid e = r.rid := by
  unfold stepEvents at he
  cases htr : r.ajaxReq with
  | none => rw [htr] at he; simp at he
  | some tr =>
    rw [htr] at he
    dsimp only at he
    by_cases hready : isReadyOK t tr
    · rw [if_pos hready] at he
      rcases List.mem_append.1 he with h | h
      · exact evRid_readyDispatch env r (tr t) e h
      · simp only [List.mem_cons, List.not_mem_nil, or_false] at h
        rcases h with h | h <;> (subst h; rfl)
    · rw [if_neg hready] at he
      by_cases htime : isTimedOut t r
      · rw [if_pos htime] at he
        rcases List.mem_append.1 he with h | h
        · exact evRid_timeoutDispatch r e h
        · simp only [List.mem_cons, List.not_mem_nil, or_false] at h
          rcases h with h | h <;> (subst h; rfl)
      · rw [if_neg htime] at he
        simp at he

lemma evRid_eventsOf (env : Env) (t : Nat) (rs : List AjaxRecord) (e : Event)
    (he : e ∈ eventsOf env t rs) : ∃ y ∈ rs, evRid e = y.rid := by
  induction rs with
  | nil => simp [eventsOf] at he
  | cons r rs ih =>
    simp only [eventsOf, List.mem_append] at he
    rcases he with h | h
    · exact ⟨r, List.mem_cons_self r rs, evRid_stepEvents env t r e h⟩
    · obtain ⟨y, hy, hey⟩ := ih h
      exact ⟨y, List.mem_cons_of_mem r hy, hey⟩

lemma ridEvents_append (xs ys : List Event) (rid : Nat) :
    ridEvents (xs ++ ys) rid = ridEvents xs rid ++ ridEvents ys rid :=
  List.filter_append xs ys

lemma ridEvents_eq_nil (evs : List Event) (rid : Nat)
    (h : ∀ e ∈ evs, evRid e ≠ rid) : ridEvents evs rid = [] := by
  unfold ridEvents
  rw [List.filter_eq_nil_iff]
  intro e he
  simp [h e he]

lemma ridEvents_self (env : Env) (t : Nat) (r : AjaxRecord) :
    ridEvents (stepEvents env t r) r.rid = stepEvents env t r := by
  unfold ridEvents
  rw [List.filter_eq_self]
  intro e he
  simp [evRid_stepEvents env t r e he]

/-- In a tick whose snapshot is `pre ++ r :: post` with every other record
id different from `r.rid`, the events belonging to `r` are exactly the
events of processing `r`. -/
lemma ridEvents_mid (env : Env) (t : Nat) (pre post : List AjaxRecord)
    (r : AjaxRecord)
    (hpre : ∀ x ∈ pre, x.rid ≠ r.rid) (hpost : ∀ x ∈ post, x.rid ≠ r.rid) :
    ridEvents (eventsOf env t (pre ++ r :: post)) r.rid =
      stepEvents env t r := by
  rw [eventsOf_append]
  have hcons : eventsOf env t (r :: post) =
      stepEvents env t r ++ eventsOf env t post := rfl
  rw [hcons, ridEvents_append, ridEvents_append]
  have h1 : ridEvents (eventsOf env t pre) r.rid = [] := by
    apply ridEvents_eq_nil
    intro e he
    obtain ⟨y, hy, hey⟩ := evRid_eventsOf env t pre e he
    rw [hey]; exact hpre y hy
  have h2 : ridEvents (eventsOf env t post) r.rid = [] := by
    apply ridEvents_eq_nil
    intro e he
    obtain ⟨y, hy, hey⟩ := evRid_eventsOf env t post e he
    rw [hey]; exact hpost y hy
  rw [h1, h2, ridEvents_self]
  simp

lemma stepEvents_ready (env : Env) (t : Nat) (r : AjaxRecord) (tr : Transport)
    (htr : r.ajaxReq = some tr) (hready : isReadyOK t tr = true) :
    stepEvents env t r =
      (readyDispatch env r (tr t)).1 ++ [.abort r.rid, .release r.rid] := by
  unfold stepEvents
  rw [htr]
  simp [hready]

lemma stepEvents_timeout (env : Env) (t : Nat) (r : AjaxRecord)
    (tr : Transport) (htr : r.ajaxReq = some tr)
    (hnr : isReadyOK t tr = false) (hto : isTimedOut t r = true) :
    stepEvents env t r =
      (timeoutDispatch r).1 ++ [.abort r.rid, .release r.rid] := by
  unfold stepEvents
  rw [htr]
  simp [hnr, hto]

lemma stepEvents_pending (env : Env) (t : Nat) (r : AjaxRecord)
    (tr : Transport) (htr : r.ajaxReq = some tr)
    (hnr : isReadyOK t tr = false) (hnt : isTimedOut t r = false) :
    stepEvents env t r = [] := by
  unfold stepEvents
  rw [htr]
  simp [hnr, hnt]

/-- After a tick resolves `r` (ready or timeout), no record in the
resulting queue carries `r`'s identity: `r` is gone and any fresh
`repeat` record has a fresh identity. -/
lemma queueOf_no_rid (env : Env) (t : Nat) (pre post : List AjaxRecord)
    (r : AjaxRecord) (k : Nat) (tr : Transport)
    (hpre : ∀ x ∈ pre, x.rid ≠ r.rid) (hpost : ∀ x ∈ post, x.rid ≠ r.rid)
    (hk : r.rid < k)
    (htr : r.ajaxReq = some tr)
    (hres : (isReadyOK t tr || isTimedOut t r) = true) :
    ∀ x ∈ queueOf env t (pre ++ r :: post) k, x.rid ≠ r.rid := by
  intro x hx
  rw [queueOf_append] at hx
  have hk1 : k ≤ ridOf t pre k := ridOf_le t pre k
  rcases List.mem_append.1 hx with h | h
  · rcases mem_queueOf env t pre k x h with ⟨y, hy, hxy⟩ | hge
    · rw [hxy]; exact hpre y hy
    · omega
  · have hq : queueOf env t (r :: post) (ridOf t pre k) =
        stepAppends env t r (ridOf t pre k) ++
          queueOf env t post (stepRid t r (ridOf t pre k)) := rfl
    rw [hq] at h
    rcases List.mem_append.1 h with h2 | h2
    · rw [stepAppends_resolved env t r _ tr htr hres] at h2
      by_cases hrep : r.rep
      · rw [if_pos hrep] at h2
        simp at h2
        rw [h2]
        simp only [newRecord]
        omega
      · rw [if_neg hrep] at h2
        simp at h2
    · rcases mem_queueOf env t post (stepRid t r (ridOf t pre k)) x h2 with
        ⟨y, hy, hxy⟩ | hge
      · rw [hxy]; exact hpost y hy
      · have h3 := stepRid_le t r (ridOf t pre k)
        omega

lemma SafeRecord_fn (env : Env) (t : Nat) (r : AjaxRecord) (tr : Transport)
    (name : String) (htr : r.ajaxReq = some tr)
    (hc : r.container = .fn name false)
    (hdoc : isReadyOK t tr = true → ∃ d, (tr t).responseXML = some d) :
    SafeRecord env t r := by
  refine ⟨tr, htr, ?_, ?_⟩
  · intro n th hcc
    rw [hc] at hcc
    injection hcc with h1 h2
    subst h2
    exact ⟨rfl, hdoc⟩
  · intro s hcc
    rw [hc] at hcc
    exact Container.noConfusion hcc

lemma SafeRecord_str (env : Env) (t : Nat) (r : AjaxRecord) (tr : Transport)
    (s : String) (htr : r.ajaxReq = some tr) (hc : r.container = .str s)
    (hs : env.hasElem s = true) : SafeRecord env t r := by
  refine ⟨tr, htr, ?_, ?_⟩
  · intro n th hcc
    rw [hc] at hcc
    exact Container.noConfusion hcc
  · intro s' hcc
    rw [hc] at hcc
    injection hcc with h1
    rw [← h1]
    exact hs

lemma SafeRecord_undef (env : Env) (t : Nat) (r : AjaxRecord)
    (tr : Transport) (htr : r.ajaxReq = some tr)
    (hc : r.container = .undef) : SafeRecord env t r := by
  refine ⟨tr, htr, ?_, ?_⟩
  · intro n th hcc
    rw [hc] at hcc
    exact Container.noConfusion hcc
  · intro s hcc
    rw [hc] at hcc
    exact Container.noConfusion hcc

/-! ## Claim theorems -/

/-- **C1.** For every tick of the Poll Scheduler (`pollAJAX`) that completes
without an uncaught exception (each snapshot record is processable without
throwing), exactly `n` records are processed, each removed from the head of
the queue, where `n = st.ajaxList.length` is the queue length captured at
tick start: the tick's result is exactly the in-order drain of the snapshot
(`eventsOf` concatenates each snapshot record's events in queue order), and
every record enqueued during the tick — a re-enqueued pending record or a
freshly created repeat record — lands at the tail, collected by `queueOf`
starting from an empty next-tick queue, and contributes no events (is not
processed) during this tick. -/
theorem claim_tick_snapshot_drain (env : Env) (t : Nat) (st : SchedState)
    (h : ∀ r ∈ st.ajaxList, SafeRecord env t r) :
    pollTick env t st =
      ⟨⟨queueOf env t st.ajaxList st.nextRid, ridOf t st.ajaxList st.nextRid⟩,
       eventsOf env t st.ajaxList, true, none⟩ :=
  pollTick_safe env t st h

theorem claim_tick_snapshot_drain_w :
    pollTick envStd 5 ⟨[recOK], 1⟩ =
      ⟨⟨queueOf envStd 5 [recOK] 1, ridOf 5 [recOK] 1⟩,
       eventsOf envStd 5 [recOK], true, none⟩ :=
  claim_tick_snapshot_drain envStd 5 ⟨[recOK], 1⟩ (by
    intro r hr
    simp at hr
    subst hr
    exact SafeRecord_fn envStd 5 recOK trOK "h" rfl rfl (fun _ => ⟨doc0, rfl⟩))

/-- **C10.** Within a single tick, the elapsed time of every processed
record is computed against one timestamp captured once at tick start
(line 30): the whole tick depends on the external clock only through its
sample at the tick's start, so all records examined in the same tick
observe the same "now". -/
theorem claim_single_timestamp (env : Env) (clock clock' : Nat → Nat)
    (st : SchedState) (h : clock 0 = clock' 0) :
    pollAJAX env clock st = pollAJAX env clock' st := by
  unfold pollAJAX
  rw [h]

theorem claim_single_timestamp_w :
    pollAJAX envStd (fun n => 100 + n) ⟨[recOK], 1⟩ =
      pollAJAX envStd (fun _ => 100) ⟨[recOK], 1⟩ :=
  claim_single_timestamp envStd (fun n => 100 + n) (fun _ => 100)
    ⟨[recOK], 1⟩ rfl

/-- **C8.** `getXMLValue` never raises: every failure path of the `try`
body collapses to `null` (first conjunct: either the body succeeds and its
value is returned, or it throws and the result is `null`); when the first
structural element named `fieldName` exists and its first child is
non-empty text, that text is returned (second conjunct); concretely, a
body with no `CDS` element yields `null` and a body containing
`<CDS>3</CDS>` yields `"3"`. -/
theorem claim_getXMLValue_total :
    (∀ x f, getXMLValueE x f = .ok (getXMLValue x f) ∨
        (getXMLValueE x f = .error () ∧ getXMLValue x f = none)) ∧
    (∀ d f el s, (XMLNode.getElems d f).head? = some el →
        el.firstChild = some (.text s) → s ≠ "" →
        getXMLValue (some d) f = some s) ∧
    getXMLValue
      (some (XMLNode.elem "response" [XMLNode.elem "RT" [XMLNode.text "x"]]))
      "CDS" = none ∧
    getXMLValue (some doc0) "CDS" = some "3" := by
  refine ⟨?_, ?_, ?_, ?_⟩
  · intro x f
    unfold getXMLValue
    cases h : getXMLValueE x f with
    | ok v => left; rfl
    | error e => right; cases e; exact ⟨rfl, rfl⟩
  · intro d f el s h1 h2 h3
    have hE : getXMLValueE (some d) f = .ok (some s) := by
      unfold getXMLValueE
      dsimp only
      rw [h1]
      dsimp only
      rw [h2]
      simp [XMLNode.nodeValue, h3]
    unfold getXMLValue
    rw [hE]
  · rfl
  · rfl

theorem claim_getXMLValue_total_w :
    getXMLValue (some (XMLNode.elem "r" [XMLNode.elem "RT" [XMLNode.text "ok"]]))
      "RT" = some "ok" :=
  claim_getXMLValue_total.2.1
    (XMLNode.elem "r" [XMLNode.elem "RT" [XMLNode.text "ok"]]) "RT"
    (XMLNode.elem "RT" [XMLNode.text "ok"]) "ok" rfl rfl (by decide)

/-- **C2.** Every record whose transport reports ready with status OK
strictly before `timeOutMS` elapses is dispatched exactly once via the
ready branch — a function sink is invoked with the parsed response body,
a named-target sink has the raw response text written into the named
render target — and the record is removed from the queue (no record with
its identity is re-enqueued).  Stated for a record at an arbitrary queue
position, in a tick whose snapshot is processable without exceptions. -/
theorem claim_ready_dispatch_once (env : Env) (t : Nat)
    (pre post : List AjaxRecord) (r : AjaxRecord) (tr : Transport) (k : Nat)
    (hsafe : ∀ x ∈ pre ++ r :: post, SafeRecord env t x)
    (hpre : ∀ x ∈ pre, x.rid ≠ r.rid) (hpost : ∀ x ∈ post, x.rid ≠ r.rid)
    (hk : r.rid < k)
    (htr : r.ajaxReq = some tr)
    (hready : isReadyOK t tr = true)
    (_hearly : (t : Int) - (r.lastCalled : Int) < timeOutMS) :
    (pollTick env t ⟨pre ++ r :: post, k⟩).err = none ∧
    (∀ name thr, r.container = .fn name thr → ∀ d,
        (tr t).responseXML = some d →
        ridEvents (pollTick env t ⟨pre ++ r :: post, k⟩).events r.rid =
          [.dispatchFn r.rid name (some d), .abort r.rid, .release r.rid]) ∧
    (∀ s, r.container = .str s →
        ridEvents (pollTick env t ⟨pre ++ r :: post, k⟩).events r.rid =
          [.writeTarget r.rid s (tr t).responseText, .abort r.rid,
           .release r.rid]) ∧
    (∀ x ∈ (pollTick env t ⟨pre ++ r :: post, k⟩).st.ajaxList,
        x.rid ≠ r.rid) := by
  rw [pollTick_safe env t ⟨pre ++ r :: post, k⟩ hsafe]
  dsimp only
  refine ⟨rfl, ?_, ?_, ?_⟩
  · intro name thr hc d hd
    rw [ridEvents_mid env t pre post r hpre hpost,
        stepEvents_ready env t r tr htr hready,
        readyDispatch_fn env r (tr t) name thr d hc hd]
    rfl
  · intro s hc
    have hs : env.hasElem s = true := by
      obtain ⟨tr', htr', hfn, hstr⟩ := hsafe r (by simp)
      exact hstr s hc
    rw [ridEvents_mid env t pre post r hpre hpost,
        stepEvents_ready env t r tr htr hready,
        readyDispatch_str env r (tr t) s hc hs]
    rfl
  · intro x hx
    exact queueOf_no_rid env t pre post r k tr hpre hpost hk htr
      (by simp [hready]) x hx

theorem claim_ready_dispatch_once_w :
    ridEvents (pollTick envStd 5 ⟨[recOK], 1⟩).events 0 =
      [.dispatchFn 0 "h" (some doc0), .abort 0, .release 0] := by
  have h := claim_ready_dispatch_once envStd 5 [] [] recOK trOK 1
    (by
      intro x hx
      simp at hx
      subst hx
      exact SafeRecord_fn envStd 5 recOK trOK "h" rfl rfl (fun _ => ⟨doc0, rfl⟩))
    (by intro x hx; cases hx) (by intro x hx; cases hx)
    (by decide) rfl rfl (by decide)
  exact h.2.1 "h" false rfl doc0 rfl

/-- **C3.** Every record whose transport never becomes ready+OK is
dispatched exactly once via the timeout branch at the first tick where
`elapsed > timeOutMS` (with `timeOutMS = 30000` ms) and not before: at a
tick with `elapsed ≤ timeOutMS` it produces no events and is re-enqueued
unchanged; at a tick with `elapsed > timeOutMS` a function sink is
invoked with a null body, while a named-target sink triggers the
user-visible alert — and no named-target write occurs — and the record
leaves the queue. -/
theorem claim_timeout_dispatch (env : Env) (t : Nat)
    (pre post : List AjaxRecord) (r : AjaxRecord) (tr : Transport) (k : Nat)
    (hsafe : ∀ x ∈ pre ++ r :: post, SafeRecord env t x)
    (hpre : ∀ x ∈ pre, x.rid ≠ r.rid) (hpost : ∀ x ∈ post, x.rid ≠ r.rid)
    (hk : r.rid < k)
    (htr : r.ajaxReq = some tr)
    (hnever : ∀ u, isReadyOK u tr = false) :
    timeOutMS = 30000 ∧
    ((t : Int) - (r.lastCalled : Int) ≤ timeOutMS →
        ridEvents (pollTick env t ⟨pre ++ r :: post, k⟩).events r.rid = [] ∧
        r ∈ (pollTick env t ⟨pre ++ r :: post, k⟩).st.ajaxList) ∧
    ((t : Int) - (r.lastCalled : Int) > timeOutMS →
        (∀ name thr, r.container = .fn name thr →
            ridEvents (pollTick env t ⟨pre ++ r :: post, k⟩).events r.rid =
              [.dispatchFn r.rid name none, .abort r.rid, .release r.rid]) ∧
        (∀ s, r.container = .str s →
            ridEvents (pollTick env t ⟨pre ++ r :: post, k⟩).events r.rid =
              [.alertFailure r.rid, .abort r.rid, .release r.rid]) ∧
        (∀ x ∈ (pollTick env t ⟨pre ++ r :: post, k⟩).st.ajaxList,
            x.rid ≠ r.rid)) := by
  rw [pollTick_safe env t ⟨pre ++ r :: post, k⟩ hsafe]
  dsimp only
  refine ⟨rfl, ?_, ?_⟩
  · intro hle
    simp only [timeOutMS] at hle
    have hnt : isTimedOut t r = false := by
      simp only [isTimedOut, timeOutMS, decide_eq_false_iff_not]
      omega
    constructor
    · rw [ridEvents_mid env t pre post r hpre hpost,
          stepEvents_pending env t r tr htr (hnever t) hnt]
    · rw [queueOf_append]
      apply List.mem_append.2
      right
      have hq : queueOf env t (r :: post) (ridOf t pre k) =
          stepAppends env t r (ridOf t pre k) ++
            queueOf env t post (stepRid t r (ridOf t pre k)) := rfl
      rw [hq, stepAppends_pending env t r _ tr htr (hnever t) hnt]
      exact List.mem_append_left _ (List.mem_cons_self r [])
  · intro hgt
    simp only [timeOutMS] at hgt
    have hto : isTimedOut t r = true := by
      simp only [isTimedOut, timeOutMS, decide_eq_true_eq]
      omega
    refine ⟨?_, ?_, ?_⟩
    · intro name thr hc
      rw [ridEvents_mid env t pre post r hpre hpost,
          stepEvents_timeout env t r tr htr (hnever t) hto,
          timeoutDispatch_fn r name thr hc]
      rfl
    · intro s hc
      rw [ridEvents_mid env t pre post r hpre hpost,
          stepEvents_timeout env t r tr htr (hnever t) hto,
          timeoutDispatch_str r s hc]
      rfl
    · intro x hx
      exact queueOf_no_rid env t pre post r k tr hpre hpost hk htr
        (by simp [hto]) x hx

theorem claim_timeout_dispatch_w :
    ridEvents (pollTick envStd 30001 ⟨[recNever], 1⟩).events 0 =
      [.dispatchFn 0 "h" none, .abort 0, .release 0] := by
  have h := claim_timeout_dispatch envStd 30001 [] [] recNever trPending 1
    (by
      intro x hx
      simp at hx
      subst hx
      exact SafeRecord_fn envStd 30001 recNever trPending "h" rfl rfl
        (fun hr => by simp [isReadyOK, trPending] at hr))
    (by intro x hx; cases hx) (by intro x hx; cases hx)
    (by decide) rfl (fun u => rfl)
  exact ((h.2.2 (by decide)).1) "h" false rfl

lemma safe_responseXML (env : Env) (t : Nat) (r : AjaxRecord) (tr : Transport)
    (name : String) (thr : Bool) (hsafe : SafeRecord env t r)
    (htr : r.ajaxReq = some tr) (hc : r.container = .fn name thr)
    (hready : isReadyOK t tr = true) :
    ∃ d, (tr t).responseXML = some d := by
  obtain ⟨tr', htr', hfn, hstr⟩ := hsafe
  rw [htr] at htr'
  injection htr' with h
  subst h
  exact (hfn name thr hc).2 hready

lemma safe_hasElem (env : Env) (t : Nat) (r : AjaxRecord) (s : String)
    (hsafe : SafeRecord env t r) (hc : r.container = .str s) :
    env.hasElem s = true := by
  obtain ⟨tr', htr', hfn, hstr⟩ := hsafe
  exact hstr s hc

/-- **C4.** If a record is dispatched (via either the ready branch or the
timeout branch) and has `repeat = true`, exactly one new record with the
same url, the same sink, the same repeat flag and no payload is appended
to the tail of the queue at the record's processing point; with
`repeat = false` no new record is created.  The second conjunct spells
out the fresh record's fields: same url, same sink, same repeat flag, a
transport freshly constructed with no payload (`data = none`), and
creation time stamped at the current tick. -/
theorem claim_repeat_reissue (env : Env) (t : Nat)
    (pre post : List AjaxRecord) (r : AjaxRecord) (tr : Transport) (k : Nat)
    (hsafe : ∀ x ∈ pre ++ r :: post, SafeRecord env t x)
    (htr : r.ajaxReq = some tr)
    (hres : (isReadyOK t tr || isTimedOut t r) = true) :
    (pollTick env t ⟨pre ++ r :: post, k⟩).st.ajaxList =
      queueOf env t pre k ++
        (if r.rep then
          [newRecord env t r.url r.container r.rep none (ridOf t pre k)]
         else []) ++
        queueOf env t post (stepRid t r (ridOf t pre k)) ∧
    (∀ j, (newRecord env t r.url r.container r.rep none j).url = r.url ∧
        (newRecord env t r.url r.container r.rep none j).container =
          r.container ∧
        (newRecord env t r.url r.container r.rep none j).rep = r.rep ∧
        (newRecord env t r.url r.container r.rep none j).ajaxReq =
          mkAjaxReq env r.url none ∧
        (newRecord env t r.url r.container r.rep none j).lastCalled = t) := by
  constructor
  · rw [pollTick_safe env t ⟨pre ++ r :: post, k⟩ hsafe]
    dsimp only
    rw [queueOf_append]
    have hq : queueOf env t (r :: post) (ridOf t pre k) =
        stepAppends env t r (ridOf t pre k) ++
          queueOf env t post (stepRid t r (ridOf t pre k)) := rfl
    rw [hq, stepAppends_resolved env t r _ tr htr hres]
    simp only [List.append_assoc]
  · intro j
    exact ⟨rfl, rfl, rfl, rfl, rfl⟩

theorem claim_repeat_reissue_w :
    (pollTick envStd 5 ⟨[recRep], 1⟩).st.ajaxList =
      queueOf envStd 5 [] 1 ++
        (if recRep.rep then
          [newRecord envStd 5 recRep.url recRep.container recRep.rep none
            (ridOf 5 [] 1)]
         else []) ++
        queueOf envStd 5 [] (stepRid 5 recRep (ridOf 5 [] 1)) :=
  (claim_repeat_reissue envStd 5 [] [] recRep trOK 1
    (by
      intro x hx
      simp at hx
      subst hx
      exact SafeRecord_undef envStd 5 recRep trOK rfl rfl)
    rfl (by decide)).1

/-- **C5 (counterexample).** At a concrete input — one record whose
transport is already ready+OK, with a function sink — the tick's event
trace is dispatch, then abort, then release.  The record is dispatched
(second conjunct) but no dispatch for it occurs after the release of its
transport handle (third conjunct): the sink dispatch happens BEFORE the
transport is aborted and released (lines 39–43 run before lines 45–46),
refuting the claim that dispatch happens after teardown. -/
theorem claim_dispatch_after_release_cex :
    (pollTick envStd 5 ⟨[recOK], 1⟩).events =
      [.dispatchFn 0 "h" (some doc0), .abort 0, .release 0] ∧
    (pollTick envStd 5 ⟨[recOK], 1⟩).events.any (isDispatchOf 0) = true ∧
    dispatchAfterRelease (pollTick envStd 5 ⟨[recOK], 1⟩).events 0 = false :=
  ⟨rfl, rfl, rfl⟩

/-- **C5 (amended).** For every resolved record the sink dispatch happens
exactly once, and it happens immediately BEFORE the transport handle is
aborted and released: the subsequence of the tick's events belonging to
the record is `[dispatch, abort, release]` — dispatch first, teardown
after. -/
theorem claim_dispatch_once_before_release (env : Env) (t : Nat)
    (pre post : List AjaxRecord) (r : AjaxRecord) (tr : Transport) (k : Nat)
    (hsafe : ∀ x ∈ pre ++ r :: post, SafeRecord env t x)
    (hpre : ∀ x ∈ pre, x.rid ≠ r.rid) (hpost : ∀ x ∈ post, x.rid ≠ r.rid)
    (htr : r.ajaxReq = some tr)
    (hres : (isReadyOK t tr || isTimedOut t r) = true) :
    (∀ name, r.container = .fn name false → ∃ ev,
        isDispatchEv ev = true ∧
        ridEvents (pollTick env t ⟨pre ++ r :: post, k⟩).events r.rid =
          [ev, .abort r.rid, .release r.rid]) ∧
    (∀ s, r.container = .str s → ∃ ev,
        isDispatchEv ev = true ∧
        ridEvents (pollTick env t ⟨pre ++ r :: post, k⟩).events r.rid =
          [ev, .abort r.rid, .release r.rid]) := by
  rw [pollTick_safe env t ⟨pre ++ r :: post, k⟩ hsafe]
  dsimp only
  rw [ridEvents_mid env t pre post r hpre hpost]
  constructor
  · intro name hc
    by_cases hready : isReadyOK t tr = true
    · obtain ⟨d, hd⟩ := safe_responseXML env t r tr name false
        (hsafe r (by simp)) htr hc hready
      refine ⟨.dispatchFn r.rid name (some d), rfl, ?_⟩
      rw [stepEvents_ready env t r tr htr hready,
          readyDispatch_fn env r (tr t) name false d hc hd]
      rfl
    · have hnr : isReadyOK t tr = false := by
        cases h : isReadyOK t tr
        · rfl
        · exact absurd h hready
      have hto : isTimedOut t r = true := by
        rw [hnr] at hres
        simpa using hres
      refine ⟨.dispatchFn r.rid name none, rfl, ?_⟩
      rw [stepEvents_timeout env t r tr htr hnr hto,
          timeoutDispatch_fn r name false hc]
      rfl
  · intro s hc
    by_cases hready : isReadyOK t tr = true
    · have hs : env.hasElem s = true :=
        safe_hasElem env t r s (hsafe r (by simp)) hc
      refine ⟨.writeTarget r.rid s (tr t).responseText, rfl, ?_⟩
      rw [stepEvents_ready env t r tr htr hready,
          readyDispatch_str env r (tr t) s hc hs]
      rfl
    · have hnr : isReadyOK t tr = false := by
        cases h : isReadyOK t tr
        · rfl
        · exact absurd h hready
      have hto : isTimedOut t r = true := by
        rw [hnr] at hres
        simpa using hres
      refine ⟨.alertFailure r.rid, rfl, ?_⟩
      rw [stepEvents_timeout env t r tr htr hnr hto,
          timeoutDispatch_str r s hc]
      rfl

theorem claim_dispatch_once_before_release_w :
    ∃ ev, isDispatchEv ev = true ∧
      ridEvents (pollTick envStd 5 ⟨[recOK], 1⟩).events 0 =
        [ev, .abort 0, .release 0] :=
  (claim_dispatch_once_before_release envStd 5 [] [] recOK trOK 1
    (by
      intro x hx
      simp at hx
      subst hx
      exact SafeRecord_fn envStd 5 recOK trOK "h" rfl rfl (fun _ => ⟨doc0, rfl⟩))
    (by intro x hx; cases hx) (by intro x hx; cases hx)
    rfl (by decide)).1 "h" rfl

/-- **C6 (code bug).** A record whose transport could not be constructed
holds a `null` handle (first conjunct: with no transport mechanism in the
environment, issuance leaves `ajaxReq = null`).  The claim — and spec
§4.1 — says such a record is resolved purely by the timeout branch and
that processing it completes without raising.  The code instead throws a
`TypeError` on line 38 (`curAjax.ajaxReq.readyState` with a `null`
handle) before any branch is reached, even at a tick where the timeout
has long expired (here `t = 40000 > 30000`): the tick errors out, emits
no events, and never reschedules itself. -/
theorem claim_null_transport_raises :
    (newRecord envBare 0 "cmd" .undef false none 0).ajaxReq = none ∧
    (pollTick envBare 40000
        (newAJAXCommand envBare 0 "cmd" .undef false none ⟨[], 0⟩)).err =
      some .typeError ∧
    (pollTick envBare 40000
        (newAJAXCommand envBare 0 "cmd" .undef false none ⟨[], 0⟩)).rescheduled
      = false ∧
    (pollTick envBare 40000
        (newAJAXCommand envBare 0 "cmd" .undef false none ⟨[], 0⟩)).events =
      [] :=
  ⟨rfl, rfl, rfl, rfl⟩

/-- **C7 (code bug).** The claim — a hardening requirement the spec itself
flags as unguarded in the source — says a throwing sink handler must not
prevent the tick from completing or rescheduling.  In the code a handler
exception propagates out of `pollAJAX`: with two queued records whose
first has a throwing handler, the tick dies after that one dispatch
(first and third conjuncts), never processes the second record (it is
left untouched in the queue, fourth conjunct), and never reaches the
`setTimeout` re-arm on line 66 (second conjunct) — the recurring poll
loop halts. -/
theorem claim_handler_throw_halts_tick :
    (pollTick envStd 5 ⟨[recThrow, recAfter], 2⟩).err =
      some (.handlerError "boom") ∧
    (pollTick envStd 5 ⟨[recThrow, recAfter], 2⟩).rescheduled = false ∧
    (pollTick envStd 5 ⟨[recThrow, recAfter], 2⟩).events =
      [.dispatchFn 0 "boom" (some doc0)] ∧
    (pollTick envStd 5 ⟨[recThrow, recAfter], 2⟩).st.ajaxList = [recAfter] :=
  ⟨rfl, rfl, rfl, rfl⟩

/-- **C9.** If a record's sink is neither a function nor a string (for
example issuance with the sink argument omitted, as callers in this
repository do), the ready branch performs no sink dispatch at all — the
successful response is silently discarded, though the transport is still
aborted and released and `repeat` is still honored — while the timeout
branch still raises the user-visible failure alert for such a record. -/
theorem claim_undef_sink_silent (env : Env) (t : Nat) (r : AjaxRecord)
    (tr : Transport) (k : Nat)
    (htr : r.ajaxReq = some tr) (hc : r.container = .undef) :
    (isReadyOK t tr = true →
        stepEvents env t r = [.abort r.rid, .release r.rid] ∧
        stepAppends env t r k =
          (if r.rep then [newRecord env t r.url r.container r.rep none k]
           else [])) ∧
    (isReadyOK t tr = false → isTimedOut t r = true →
        stepEvents env t r =
          [.alertFailure r.rid, .abort r.rid, .release r.rid]) := by
  constructor
  · intro hready
    constructor
    · rw [stepEvents_ready env t r tr htr hready,
          readyDispatch_undef env r (tr t) hc]
      rfl
    · exact stepAppends_resolved env t r k tr htr (by simp [hready])
  · intro hnr hto
    rw [stepEvents_timeout env t r tr htr hnr hto, timeoutDispatch_undef r hc]
    rfl

theorem claim_undef_sink_silent_w :
    stepEvents envStd 5 recUndef = [.abort 0, .release 0] ∧
    stepAppends envStd 5 recUndef 1 =
      (if recUndef.rep then
        [newRecord envStd 5 recUndef.url recUndef.container recUndef.rep none 1]
       else []) :=
  (claim_undef_sink_silent envStd 5 recUndef trOK 1 rfl rfl).1 rfl
